import Mathlib

/-
  Shallow embedding of the work-distribution and recovery core of the
  hyperion backend: the media task pipeline (worker_process.py), the
  reaper sweep (reaper_process.py), the rate-limit gate and notification
  manager (conn_manager.py), the status-change audit log
  (media_log_utils.py) and the ingest paths (upload.py, hf_upload.py).

  Timestamps and dates are modelled as natural numbers (seconds);
  float-valued confidences are modelled as rationals.  Database rows
  become entries of lists inside a Store record; each committed
  transaction of the source becomes a pure Store -> Store function.
-/

namespace Hyperion

/-- Task status enum, from app/models/upload/MediaStatus.py.  The spec
calls the UPLOADED state QUEUED (pre-claim). -/
inductive MediaStatus where
  | PENDING
  | UPLOADED
  | EXTRACTING
  | PROCESSING
  | READY
  | FAILED
deriving DecidableEq

/-- The string value of a status, as stored in MediaLog messages. -/
def MediaStatus.value : MediaStatus → String
  | .PENDING => "PENDING"
  | .UPLOADED => "UPLOADED"
  | .EXTRACTING => "EXTRACTING"
  | .PROCESSING => "PROCESSING"
  | .READY => "READY"
  | .FAILED => "FAILED"

/-- One detection row, from app/models/db/Detection.py as created by
_generate_fake_detections in worker_process.py. -/
structure Detection where
  mediaId : Nat
  label : String
  confidence : ℚ
  bboxX : ℚ
  bboxY : ℚ
  bboxW : ℚ
  bboxH : ℚ
  isManual : Bool
  areaSqm : ℚ
deriving DecidableEq

/-- GPS payload inside the extracted technical metadata.  A value
(some g) models a non-empty gps dict in the Python metadata. -/
structure GpsData where
  lat : Option ℚ
  lng : Option ℚ
  altitude : Option ℚ
  address : Option String
deriving DecidableEq

/-- The technical_metadata JSON column as read and written by the worker:
hasError models the presence of an "error" key in the extractor result;
the three rollup mirrors are the has_trash / confidence /
detections_count keys written at finalization.  Remaining EXIF payload
keys are never read back by this core and are elided. -/
structure TechMeta where
  hasError : Bool
  gps : Option GpsData
  hasTrash : Option Bool
  confidence : Option ℚ
  detectionsCount : Option Nat
deriving DecidableEq

/-- An extractor result carrying no rollup keys. -/
def TechMeta.fresh (hasError : Bool) (gps : Option GpsData) : TechMeta :=
  { hasError := hasError, gps := gps, hasTrash := none,
    confidence := none, detectionsCount := none }

/-- The empty technical-metadata dict, used for the
(task.technical_metadata or ...) fallback. -/
def TechMeta.empty : TechMeta :=
  TechMeta.fresh false none

/-- The initial_metadata JSON column.  Only the mime keys are ever read
by the worker (_is_image_media); the ingest path writes filename, size,
width and height but none of the mime keys, which is modelled by both
fields being none. -/
structure InitialMeta where
  mimeType : Option String
  mimetypeAlt : Option String
deriving DecidableEq

/-- One media row, from app/models/db/Media.py (columns read or written
by the pipeline core). -/
structure Task where
  id : Nat
  uploaderId : Nat
  status : MediaStatus
  hfPath : Option String
  initialMetadata : Option InitialMeta
  technicalMetadata : Option TechMeta
  assignedWorker : Option String
  createdAt : Nat
  updatedAt : Nat
  lat : Option ℚ
  lng : Option ℚ
  altitude : Option ℚ
  address : Option String
  hasTrash : Bool
  confidence : ℚ
  failedReason : Option String
deriving DecidableEq

/-- One ai_worker_states row, from app/models/db/AIWorker.py. -/
structure WorkerState where
  name : String
  lastPing : Option Nat
  status : String
  tasksProcessedToday : Nat
  lastResetDate : Option Nat
deriving DecidableEq

/-- One media_logs row, from app/models/db/MediaLog.py. -/
structure MediaLog where
  mediaId : Nat
  workerName : Option String
  action : String
  message : String
  timestamp : Nat
deriving DecidableEq

/-- One call to ConnectionManager.send_status (conn_manager.py).  The
sink is fire-and-forget and may drop packets for disconnected clients;
the list of packets models the calls made, not the deliveries. -/
structure SentNote where
  userId : Nat
  mediaId : Nat
  status : String
  worker : Option String
  imgUrl : Option String
  address : Option String
  failedReason : Option String
deriving DecidableEq

/-- The shared durable state: media rows, worker rows, audit log,
detection rows, the trace of notification calls, and the process-wide
hf_cooldown_until field of the ConnectionManager. -/
structure Store where
  tasks : List Task
  workers : List WorkerState
  logs : List MediaLog
  detections : List Detection
  sent : List SentNote
  cooldownUntil : Option Nat
deriving DecidableEq

/-- media_log_utils.create_status_change_log. -/
def create_status_change_log (mediaId : Nat) (status : MediaStatus)
    (workerName : Option String) (detail : Option String) (now : Nat) : MediaLog :=
  let message := "Status changed to " ++ status.value
  let message :=
    match detail with
    | some d => message ++ " (" ++ d ++ ")"
    | none => message
  { mediaId := mediaId, workerName := workerName, action := "STATUS_CHANGE",
    message := message, timestamp := now }

/-- ConnectionManager.send_status appends one packet to the trace. -/
def sendStatus (userId mediaId : Nat) (status : String) (worker : Option String)
    (imgUrl : Option String) (address : Option String) (failedReason : Option String)
    (s : Store) : Store :=
  let note : SentNote :=
    { userId := userId, mediaId := mediaId, status := status, worker := worker,
      imgUrl := imgUrl, address := address, failedReason := failedReason }
  { s with sent := s.sent ++ [note] }

/-- ConnectionManager.is_hf_rate_limited: returns the boolean answer and
the new value of hf_cooldown_until (the check lazily clears an expired
cooldown; a datetime object is always truthy in Python, so any stored
timestamp enters the inner comparison). -/
def isHfRateLimited (cooldownUntil : Option Nat) (now : Nat) : Bool × Option Nat :=
  match cooldownUntil with
  | some t => if now < t then (true, some t) else (false, none)
  | none => (false, none)

/-- ConnectionManager.set_hf_cooldown: the value hf_cooldown_until would
take if the method were called.  No code path of the repository invokes
this method. -/
def setHfCooldown (hours : Nat) (now : Nat) : Option Nat :=
  some (now + hours * 3600)

/-- Image extensions recognised by _is_image_media (worker_process.py). -/
def IMAGE_EXTENSIONS : List String :=
  [".jpg", ".jpeg", ".png", ".webp", ".bmp", ".tif", ".tiff", ".heic"]

/-! String helpers modelled over the character list (the builtin String
functions are compiled natively and do not reduce in the kernel). -/

/-- Whether pat leads text (character-wise); Python str.startswith. -/
def charsLead : List Char → List Char → Bool
  | [], _ => true
  | _ :: _, [] => false
  | a :: as, b :: bs => decide (a = b) && charsLead as bs

/-- Whether text contains pat as a contiguous run; Python `in`. -/
def charsContain : List Char → List Char → Bool
  | [], pat => pat.isEmpty
  | b :: bs, pat => charsLead pat (b :: bs) || charsContain bs pat

/-- Python str.lower. -/
def strLower (s : String) : String :=
  String.mk (s.data.map Char.toLower)

/-- Python str.upper. -/
def strUpper (s : String) : String :=
  String.mk (s.data.map Char.toUpper)

/-- Python str.startswith. -/
def strStarts (s pat : String) : Bool :=
  charsLead pat.data s.data

/-- Python str.endswith. -/
def strEnds (s pat : String) : Bool :=
  charsLead pat.data.reverse s.data.reverse

/-- Python substring membership (the `in` operator). -/
def containsSub (s sub : String) : Bool :=
  charsContain s.data sub.data

/-- The effective mime string of _is_image_media: metadata.get("mime_type")
or metadata.get("mimetype") or "", lowered.  A missing dict behaves as the
empty dict; Python `or` skips empty strings. -/
def effectiveMime (m : Option InitialMeta) : String :=
  let meta := match m with
    | some x => x
    | none => { mimeType := none, mimetypeAlt := none }
  let a := match meta.mimeType with
    | some v => v
    | none => ""
  let b := match meta.mimetypeAlt with
    | some v => v
    | none => ""
  strLower (if a ≠ "" then a else if b ≠ "" then b else "")

/-- _is_image_media (worker_process.py lines 21-28). -/
def isImageMedia (t : Task) : Bool :=
  let mimetype := effectiveMime t.initialMetadata
  if strStarts mimetype "image/" then true
  else
    let hfPath := strLower (match t.hfPath with
      | some p => p
      | none => "")
    IMAGE_EXTENSIONS.any (fun ext => strEnds hfPath ext)

/-- max(d.confidence for d in dets) over a non-empty list (Python max
raises on an empty sequence; the zero default is never reached by the
worker, which branches on emptiness first). -/
def maxConf : List Detection → ℚ
  | [] => 0
  | [d] => d.confidence
  | d :: ds => max d.confidence (maxConf ds)

/-- Round half to even on rationals, the tie-breaking rule of Python
round. -/
def roundHalfEven (q : ℚ) : ℤ :=
  if q - ⌊q⌋ = 1 / 2 then (if 2 ∣ ⌊q⌋ then ⌊q⌋ else ⌊q⌋ + 1) else round q

/-- Python round(x, 2). -/
def pyRound2 (q : ℚ) : ℚ :=
  (roundHalfEven (q * 100) : ℚ) / 100

/-! ## Worker loop operations (worker_process.py) -/

/-- The daily-counter rollover followed by the heartbeat, lines 85-105:
one UPDATE resetting the counter when last_reset_date is null or differs
from today, then one UPDATE stamping last_ping and status Active. -/
def heartbeatRollover (name : String) (today now : Nat)
    (ws : List WorkerState) : List WorkerState :=
  let ws := ws.map (fun w =>
    if w.name = name ∧ (w.lastResetDate = none ∨ w.lastResetDate ≠ some today) then
      { w with tasksProcessedToday := 0, lastResetDate := some today }
    else w)
  ws.map (fun w =>
    if w.name = name then { w with lastPing := some now, status := "Active" } else w)

/-- Store-level view of the heartbeat transaction. -/
def workerHeartbeat (name : String) (today now : Nat) (s : Store) : Store :=
  { s with workers := heartbeatRollover name today now s.workers }

/-- The rate-limited branch of the worker loop, lines 71-83: ping and
pause, then sleep; no task is touched. -/
def pauseRateLimited (name : String) (now : Nat) (s : Store) : Store :=
  { s with workers := s.workers.map (fun w =>
      if w.name = name then { w with lastPing := some now, status := "Paused (Rate Limited)" }
      else w) }

/-- A task the claim query can select: status UPLOADED (the queued state)
and no assigned worker. -/
def eligibleTask (t : Task) : Prop :=
  t.status = MediaStatus.UPLOADED ∧ t.assignedWorker = none

instance (t : Task) : Decidable (eligibleTask t) := by
  unfold eligibleTask; infer_instance

/-- The row returned by the claim query (ORDER BY created_at ASC LIMIT 1
over eligible rows): the first entry holding the minimal created_at,
together with its position.  FOR UPDATE SKIP LOCKED serializes concurrent
claims, so the query is modelled as an atomic selection. -/
def pickOldest : List Task → Option (Nat × Task)
  | [] => none
  | t :: ts =>
    match pickOldest ts with
    | none => if eligibleTask t then some (0, t) else none
    | some (i, b) =>
      if eligibleTask t then
        if t.createdAt ≤ b.createdAt then some (0, t) else some (i + 1, b)
      else some (i + 1, b)

/-- The in-place mutation of a freshly claimed row, lines 126-127. -/
def claimTask (name : String) (now : Nat) (t : Task) : Task :=
  { t with status := MediaStatus.EXTRACTING, assignedWorker := some name, updatedAt := now }

/-- Sets the status label of one worker row. -/
def setWorkerStatus (name status : String) (ws : List WorkerState) : List WorkerState :=
  ws.map (fun w => if w.name = name then { w with status := status } else w)

/-- The claim transaction, lines 107-142: select the oldest eligible row,
move it to EXTRACTING, stamp assigned_worker, append the EXTRACTING
StatusEvent, set the worker row to Working, and return the claimed task;
with no eligible row the transaction changes nothing and returns none. -/
def claimNext (name : String) (now : Nat) (s : Store) : Option Task × Store :=
  match pickOldest s.tasks with
  | none => (none, s)
  | some (i, t) =>
    let t2 := claimTask name now t
    (some t2,
      { s with
        tasks := s.tasks.set i t2,
        logs := s.logs ++
          [create_status_change_log t.id MediaStatus.EXTRACTING (some name) none now],
        workers := setWorkerStatus name "Working" s.workers })

/-- An exception raised inside the extraction stage.  rateLimited marks
the HTTP-429-equivalent error of the object store client; the except
block of lines 219-240 catches every exception uniformly and never
inspects this distinction. -/
structure ExtractErr where
  rateLimited : Bool
  msg : String
deriving DecidableEq

/-- The extraction-failure path, lines 219-247: the task is set to FAILED
(assigned_worker and failed_reason are left untouched), a FAILED
StatusEvent with the exception text is appended, the worker row returns
to Active, and the owner is notified.  hf_cooldown_until is not written
on any branch, rate limited or not. -/
def extractionFailure (name : String) (taskId uploaderId : Nat) (e : ExtractErr)
    (now : Nat) (s : Store) : Store :=
  let s :=
    { s with
      tasks := s.tasks.map (fun t =>
        if t.id = taskId then { t with status := MediaStatus.FAILED, updatedAt := now } else t),
      logs := s.logs ++
        [create_status_change_log taskId MediaStatus.FAILED (some name)
          (some ("Extraction failed: " ++ e.msg)) now],
      workers := setWorkerStatus name "Active" s.workers }
  sendStatus uploaderId taskId MediaStatus.FAILED.value (some name) none none none s

/-- The extraction-success transaction, lines 189-216: the task moves to
PROCESSING, the extracted metadata is persisted, GPS fields are copied to
columns when the extractor reported no error and a non-empty gps dict,
and a PROCESSING StatusEvent is appended. -/
def extractionSuccess (name : String) (taskId : Nat) (meta : TechMeta)
    (now : Nat) (s : Store) : Store :=
  { s with
    tasks := s.tasks.map (fun t =>
      if t.id = taskId then
        let t := { t with status := MediaStatus.PROCESSING,
                          technicalMetadata := some meta, updatedAt := now }
        match meta.hasError, meta.gps with
        | false, some g =>
          { t with lat := g.lat, lng := g.lng, altitude := g.altitude, address := g.address }
        | _, _ => t
      else t),
    logs := s.logs ++
      [create_status_change_log taskId MediaStatus.PROCESSING (some name)
        (some "Extracted EXIF and GPS data") now] }

/-- The rollup block of the finalization transaction, lines 275-295: the
task-level has_trash and confidence fields, their mirrors inside
technical_metadata, and the READY transition. -/
def applyRollup (t : Task) (dets : List Detection) (now : Nat) : Task :=
  match dets with
  | [] =>
    let meta := match t.technicalMetadata with
      | some m => m
      | none => TechMeta.empty
    let meta := { meta with hasTrash := some false, confidence := some (0 : ℚ),
                            detectionsCount := some 0 }
    { t with hasTrash := false, confidence := 0, technicalMetadata := some meta,
             status := MediaStatus.READY, updatedAt := now }
  | d :: ds =>
    let c := pyRound2 (maxConf (d :: ds) * 100)
    let meta := match t.technicalMetadata with
      | some m => m
      | none => TechMeta.empty
    let meta := { meta with hasTrash := some true, confidence := some c,
                            detectionsCount := some (d :: ds).length }
    { t with hasTrash := true, confidence := c, technicalMetadata := some meta,
             status := MediaStatus.READY, updatedAt := now }

/-- The finalization transaction, lines 265-312: re-select the task;
detections are generated only for image media (gen is the output the
random generator would produce); persist the detection rows, the rollups
and the READY transition; bump the worker counter and append the READY
StatusEvent.  A missing row would raise out of scalar_one into the outer
loop handler, which changes nothing. -/
def finalizeTask (name : String) (gen : List Detection) (taskId now : Nat)
    (s : Store) : Store :=
  match s.tasks.find? (fun u => u.id == taskId) with
  | none => s
  | some task =>
    let dets := if isImageMedia task then gen else []
    { s with
      tasks := s.tasks.map (fun t => if t.id = taskId then applyRollup t dets now else t),
      detections := s.detections ++ dets,
      workers := s.workers.map (fun w =>
        if w.name = name then
          { w with status := "Active", tasksProcessedToday := w.tasksProcessedToday + 1 }
        else w),
      logs := s.logs ++
        [create_status_change_log taskId MediaStatus.READY (some name) none now] }

/-- Outcome of the processing stage of one iteration: either the
simulated detection step completes with a list of detections, or some
statement of the stage raises. -/
inductive StageOutcome where
  | ok (gen : List Detection)
  | raised (msg : String)

/-- The processing stage, lines 263-312 plus the outer handler of lines
321-323: a raise anywhere in the stage aborts the transaction and is
caught at the outermost loop boundary, which only logs and sleeps, so
the store is left exactly as it was; on success the finalization
transaction runs. -/
def processingStage (name : String) (outcome : StageOutcome) (taskId now : Nat)
    (s : Store) : Store :=
  match outcome with
  | .raised _ => s
  | .ok gen => finalizeTask name gen taskId now s

/-! ## Ingest operations (upload.py, hf_upload.py) -/

/-- batch_upload (upload.py lines 89-119), per file: a new PENDING media
row with no mime keys in initial_metadata, a PENDING StatusEvent and a
PENDING notification. -/
def ingestTask (taskId uploaderId now : Nat) (s : Store) : Store :=
  let t : Task :=
    { id := taskId, uploaderId := uploaderId, status := MediaStatus.PENDING,
      hfPath := none, initialMetadata := some { mimeType := none, mimetypeAlt := none },
      technicalMetadata := none, assignedWorker := none, createdAt := now,
      updatedAt := now, lat := none, lng := none, altitude := none, address := none,
      hasTrash := false, confidence := 0, failedReason := none }
  let s := { s with
    tasks := s.tasks ++ [t],
    logs := s.logs ++ [create_status_change_log taskId MediaStatus.PENDING none none now] }
  sendStatus uploaderId taskId MediaStatus.PENDING.value none none none none s

/-- process_hf_upload success path (hf_upload.py lines 101-116), per
file: the row moves to UPLOADED with its hf_path, an UPLOADED
StatusEvent is appended and an UPLOADED notification with the image url
is sent. -/
def hfUploadSuccess (taskId : Nat) (path : String) (uploaderId now : Nat)
    (s : Store) : Store :=
  let s := { s with
    tasks := s.tasks.map (fun t =>
      if t.id = taskId then
        { t with status := MediaStatus.UPLOADED, hfPath := some path, updatedAt := now }
      else t),
    logs := s.logs ++ [create_status_change_log taskId MediaStatus.UPLOADED none none now] }
  sendStatus uploaderId taskId "UPLOADED" none (some path) none none s

/-- The canned failure text of the ingest upload path. -/
def uploadFailureReason : String :=
  "Server encountered an issue while saving your files to secure storage."

/-- process_hf_upload failure path (hf_upload.py lines 118-136), per
file: the row moves to FAILED with failed_reason set to the canned text,
a FAILED notification is sent; note that this path appends no
StatusEvent and never writes hf_cooldown_until, whatever the exception
(including an HTTP 429 from create_commit). -/
def hfUploadFailure (taskId uploaderId now : Nat) (s : Store) : Store :=
  let s := { s with
    tasks := s.tasks.map (fun t =>
      if t.id = taskId then
        { t with status := MediaStatus.FAILED, failedReason := some uploadFailureReason,
                 updatedAt := now }
      else t) }
  sendStatus uploaderId taskId "FAILED" none none none (some uploadFailureReason) s

/-! ## Reaper operations (reaper_process.py) -/

/-- The most recent media_logs row of one media id (ORDER BY timestamp
DESC LIMIT 1); among equal timestamps the later appended row wins. -/
def latestLog : List MediaLog → Nat → Option MediaLog
  | [], _ => none
  | l :: ls, mid =>
    match latestLog ls mid with
    | none => if l.mediaId = mid then some l else none
    | some b => if l.mediaId = mid ∧ b.timestamp < l.timestamp then some l else some b

/-- _build_pending_timeout_detail (reaper_process.py lines 13-38). -/
def buildPendingTimeoutDetail (logs : List MediaLog) (mid : Nat) : String :=
  match latestLog logs mid with
  | none => "reaper pending timeout: failed during HF upload transfer"
  | some l =>
    let normalized := strUpper l.message
    let step :=
      if containsSub normalized "UPLOADED" then "during status persistence after HF upload"
      else if containsSub normalized "PENDING" then "during upload transfer"
      else if containsSub normalized "FAILED" then "while recovering from previous failure"
      else "at unknown pipeline step"
    "reaper pending timeout: failed " ++ step ++ " (last log: " ++ l.message ++ ")"

/-- A worker row the sweep treats as stale: last_ping at or before the
threshold, or null. -/
def isStaleWorker (threshold : Nat) (w : WorkerState) : Bool :=
  match w.lastPing with
  | none => true
  | some p => decide (p ≤ threshold)

/-- The names returned by the offline-workers query. -/
def staleWorkerNames (ws : List WorkerState) (threshold : Nat) : List String :=
  (ws.filter (isStaleWorker threshold)).map (fun w => w.name)

/-- A row of the stale-PENDING query: status PENDING, updated_at at or
before the pending threshold. -/
def isPendingVictim (pendingThreshold : Nat) (t : Task) : Bool :=
  decide (t.status = MediaStatus.PENDING ∧ t.updatedAt ≤ pendingThreshold)

/-- Whether the assigned worker of a row is among the selected stale
names (SQL IN over a list never matches a NULL column). -/
def assignedIn (offline : List String) (t : Task) : Bool :=
  match t.assignedWorker with
  | some w => decide (w ∈ offline)
  | none => false

/-- A row of the zombie-tasks query: in-flight status and an assigned
worker among the stale names. -/
def isZombie (offline : List String) (t : Task) : Bool :=
  decide (t.status = MediaStatus.EXTRACTING ∨ t.status = MediaStatus.PROCESSING)
    && assignedIn offline t

/-- The pending-timeout mutation of one row. -/
def failPendingTask (now : Nat) (t : Task) : Task :=
  { t with status := MediaStatus.FAILED, assignedWorker := none, updatedAt := now }

/-- The orphan-recovery mutation of one row. -/
def demoteTask (now : Nat) (t : Task) : Task :=
  { t with status := MediaStatus.UPLOADED, assignedWorker := none, updatedAt := now }

/-- One turn of the stale-PENDING loop, lines 80-100: derive the
diagnostic detail from the latest log, append the FAILED StatusEvent,
notify the owner, then terminal-fail the row (clearing assigned_worker;
failed_reason is not written). -/
def pendingFailStep (now : Nat) (s : Store) (v : Task) : Store :=
  let detail := buildPendingTimeoutDetail s.logs v.id
  let s := { s with
    logs := s.logs ++
      [create_status_change_log v.id MediaStatus.FAILED none (some detail) now] }
  let s := sendStatus v.uploaderId v.id MediaStatus.FAILED.value none none none none s
  { s with tasks := s.tasks.map (fun t =>
      if t.id = v.id then failPendingTask now t else t) }

/-- The rows materialized by the stale-PENDING SELECT. -/
def pendingSelected (now : Nat) (s : Store) : List Task :=
  s.tasks.filter (isPendingVictim (now - 900))

/-- The stale-PENDING phase, lines 72-100: the SELECT materializes the
victims first, then the loop mutates them one by one. -/
def pendingPhase (now : Nat) (s : Store) : Store :=
  (pendingSelected now s).foldl (pendingFailStep now) s

/-- One turn of the zombie-recovery loop, lines 123-140: append the
recovery StatusEvent, notify the owner, then demote the row back to
UPLOADED with assigned_worker cleared. -/
def zombieStep (now : Nat) (s : Store) (v : Task) : Store :=
  let s := { s with
    logs := s.logs ++
      [create_status_change_log v.id MediaStatus.UPLOADED none (some "reaper recovery") now] }
  let s := sendStatus v.uploaderId v.id MediaStatus.UPLOADED.value none none none none s
  { s with tasks := s.tasks.map (fun t =>
      if t.id = v.id then demoteTask now t else t) }

/-- The rows materialized by the zombie-tasks SELECT; with no stale
worker the query is skipped entirely (empty selection). -/
def zombieSelected (now : Nat) (s : Store) : List Task :=
  match staleWorkerNames s.workers (now - 600) with
  | [] => []
  | _ => s.tasks.filter (isZombie (staleWorkerNames s.workers (now - 600)))

/-- The orphan-recovery phase, lines 102-140: collect the stale worker
names; when there are none the zombie query is skipped, otherwise the
selected zombies are demoted one by one. -/
def zombiePhase (now : Nat) (s : Store) : Store :=
  (zombieSelected now s).foldl (zombieStep now) s

/-- The stale-UPLOADED scan of lines 60-70 only pulses the in-process
wake condition (worker_signal.notify_all) and leaves the store
untouched; this predicate records when the pulse fires. -/
def staleUploadedNudge (now : Nat) (s : Store) : Bool :=
  s.tasks.any (fun t =>
    decide (t.status = MediaStatus.UPLOADED ∧ t.assignedWorker = none ∧
      t.updatedAt ≤ now - 600))

/-- One reaper sweep, ai_reaper_process lines 49-143: when the rate-limit
gate reports limited the sweep is skipped entirely (the stored cooldown
is then still in the future and stays as it is); otherwise the gate may
have lazily cleared an expired cooldown, the stale-UPLOADED nudge fires
(store-neutral), the stale-PENDING rows are terminal-failed and the
orphaned in-flight rows are demoted. -/
def reaperSweep (now : Nat) (s : Store) : Store :=
  match isHfRateLimited s.cooldownUntil now with
  | (true, _) => s
  | (false, cd) => zombiePhase now (pendingPhase now { s with cooldownUntil := cd })

/-! ## Reachable stores

Each constructor is one committed transaction (or one store-neutral
notification call) of the source.  The worker-stage constructors carry
the protocol guard that every row with the stepped id is still in the
state the stepping worker left it in: the SQL UPDATE itself is
unguarded, but a live claim is owned exclusively by its worker (spec
section 5), so these are the transitions of protocol-respecting runs. -/

/-- The gate check itself mutates the manager state (lazy clearing), both
in the worker loop and in the reaper. -/
def gateCheck (now : Nat) (s : Store) : Store :=
  { s with cooldownUntil := (isHfRateLimited s.cooldownUntil now).2 }

inductive Reachable : Store → Prop where
  | init (ws : List WorkerState) (cd : Option Nat) :
      Reachable { tasks := [], workers := ws, logs := [], detections := [],
                  sent := [], cooldownUntil := cd }
  | ingest (s : Store) (hs : Reachable s) (taskId uploaderId now : Nat) :
      Reachable (ingestTask taskId uploaderId now s)
  | uploadOk (s : Store) (hs : Reachable s) (taskId : Nat) (path : String)
      (uploaderId now : Nat) :
      Reachable (hfUploadSuccess taskId path uploaderId now s)
  | uploadFail (s : Store) (hs : Reachable s) (taskId uploaderId now : Nat) :
      Reachable (hfUploadFailure taskId uploaderId now s)
  | heartbeat (s : Store) (hs : Reachable s) (name : String) (today now : Nat) :
      Reachable (workerHeartbeat name today now s)
  | ratePause (s : Store) (hs : Reachable s) (name : String) (now : Nat) :
      Reachable (pauseRateLimited name now s)
  | gate (s : Store) (hs : Reachable s) (now : Nat) :
      Reachable (gateCheck now s)
  | claim (s : Store) (hs : Reachable s) (name : String) (now : Nat) :
      Reachable (claimNext name now s).2
  | extractOk (s : Store) (hs : Reachable s) (name : String) (taskId : Nat)
      (meta : TechMeta) (now : Nat)
      (hold : ∀ t ∈ s.tasks, t.id = taskId →
        t.status = MediaStatus.EXTRACTING ∧ t.assignedWorker = some name) :
      Reachable (extractionSuccess name taskId meta now s)
  | extractFail (s : Store) (hs : Reachable s) (name : String)
      (taskId uploaderId : Nat) (e : ExtractErr) (now : Nat)
      (hold : ∀ t ∈ s.tasks, t.id = taskId →
        t.status = MediaStatus.EXTRACTING ∧ t.assignedWorker = some name) :
      Reachable (extractionFailure name taskId uploaderId e now s)
  | process (s : Store) (hs : Reachable s) (name : String)
      (outcome : StageOutcome) (taskId now : Nat)
      (hold : ∀ t ∈ s.tasks, t.id = taskId →
        t.status = MediaStatus.PROCESSING ∧ t.assignedWorker = some name) :
      Reachable (processingStage name outcome taskId now s)
  | notifySent (s : Store) (hs : Reachable s) (userId mediaId : Nat)
      (status : String) (worker imgUrl address failedReason : Option String) :
      Reachable (sendStatus userId mediaId status worker imgUrl address failedReason s)
  | reap (s : Store) (hs : Reachable s) (now : Nat) :
      Reachable (reaperSweep now s)

/-! ## A concrete protocol-respecting run

One task driven from ingest to READY by worker Titan-1; used by the
counterexample and witness theorems below. -/

def fleetW1 : WorkerState :=
  { name := "Titan-1", lastPing := none, status := "Idle",
    tasksProcessedToday := 0, lastResetDate := none }

def runS0 : Store :=
  { tasks := [], workers := [fleetW1], logs := [], detections := [],
    sent := [], cooldownUntil := none }

def runS1 : Store := ingestTask 1 7 0 runS0

def runS2 : Store := hfUploadSuccess 1 "media/7/2026-10-12/1_beach.jpg" 7 1 runS1

def runS3 : Store := (claimNext "Titan-1" 2 runS2).2

def runMeta : TechMeta := TechMeta.fresh false none

def runS4 : Store := extractionSuccess "Titan-1" 1 runMeta 3 runS3

def runDet : Detection :=
  { mediaId := 1, label := "plastic", confidence := 9 / 10, bboxX := 1 / 10,
    bboxY := 1 / 10, bboxW := 2 / 10, bboxH := 2 / 10, isManual := false,
    areaSqm := 1 }

def runS5 : Store := processingStage "Titan-1" (StageOutcome.ok [runDet]) 1 4 runS4

/-- A second detection with confidence 0.6 (the spec example). -/
def runDet06 : Detection :=
  { mediaId := 1, label := "metal", confidence := 6 / 10, bboxX := 3 / 10,
    bboxY := 3 / 10, bboxW := 2 / 10, bboxH := 2 / 10, isManual := false,
    areaSqm := 2 }

/-- The task of the concrete run as it stands while PROCESSING. -/
def runTask0 : Task :=
  { id := 1, uploaderId := 7, status := MediaStatus.PROCESSING,
    hfPath := some "media/7/2026-10-12/1_beach.jpg",
    initialMetadata := some { mimeType := none, mimetypeAlt := none },
    technicalMetadata := some runMeta, assignedWorker := some "Titan-1",
    createdAt := 0, updatedAt := 3, lat := none, lng := none, altitude := none,
    address := none, hasTrash := false, confidence := 0, failedReason := none }

/-- A non-image task (an mp4 clip) sitting in PROCESSING. -/
def vidTask : Task :=
  { id := 2, uploaderId := 7, status := MediaStatus.PROCESSING,
    hfPath := some "media/7/2026-10-12/2_clip.mp4",
    initialMetadata := some { mimeType := none, mimetypeAlt := none },
    technicalMetadata := none, assignedWorker := some "Titan-1",
    createdAt := 0, updatedAt := 3, lat := none, lng := none, altitude := none,
    address := none, hasTrash := false, confidence := 0, failedReason := none }

def vidStore : Store :=
  { tasks := [vidTask], workers := [fleetW1], logs := [], detections := [],
    sent := [], cooldownUntil := none }

/-- A PENDING task stuck since time 0. -/
def pendTask : Task :=
  { id := 3, uploaderId := 7, status := MediaStatus.PENDING,
    hfPath := none, initialMetadata := some { mimeType := none, mimetypeAlt := none },
    technicalMetadata := none, assignedWorker := none, createdAt := 0,
    updatedAt := 0, lat := none, lng := none, altitude := none, address := none,
    hasTrash := false, confidence := 0, failedReason := none }

/-- A store with one PENDING task stuck since time 0 (its PENDING
StatusEvent is logged), swept by the reaper at time 1000. -/
def pendStore : Store :=
  { tasks := [pendTask],
    workers := [], logs := [create_status_change_log 3 MediaStatus.PENDING none none 0],
    detections := [], sent := [], cooldownUntil := none }

/-- A worker whose last ping (time 0) is stale at sweep time 700. -/
def staleWorker : WorkerState :=
  { name := "Titan-2", lastPing := some 0, status := "Active",
    tasksProcessedToday := 0, lastResetDate := none }

/-- An in-flight task abandoned by the stale worker. -/
def staleTask : Task :=
  { id := 4, uploaderId := 7, status := MediaStatus.EXTRACTING,
    hfPath := some "media/7/2026-10-12/4_pond.jpg",
    initialMetadata := some { mimeType := none, mimetypeAlt := none },
    technicalMetadata := none, assignedWorker := some "Titan-2",
    createdAt := 0, updatedAt := 0, lat := none, lng := none, altitude := none,
    address := none, hasTrash := false, confidence := 0, failedReason := none }

/-- A store holding the abandoned task and the stale worker. -/
def staleStore : Store :=
  { tasks := [staleTask], workers := [staleWorker], logs := [],
    detections := [], sent := [], cooldownUntil := none }

/-- Two eligible queued rows; id 11 is older. -/
def taskOldA : Task :=
  { id := 10, uploaderId := 7, status := MediaStatus.UPLOADED,
    hfPath := some "media/7/2026-10-12/10_a.jpg",
    initialMetadata := some { mimeType := none, mimetypeAlt := none },
    technicalMetadata := none, assignedWorker := none, createdAt := 5,
    updatedAt := 5, lat := none, lng := none, altitude := none, address := none,
    hasTrash := false, confidence := 0, failedReason := none }

def taskOldB : Task :=
  { id := 11, uploaderId := 7, status := MediaStatus.UPLOADED,
    hfPath := some "media/7/2026-10-12/11_b.jpg",
    initialMetadata := some { mimeType := none, mimetypeAlt := none },
    technicalMetadata := none, assignedWorker := none, createdAt := 2,
    updatedAt := 2, lat := none, lng := none, altitude := none, address := none,
    hasTrash := false, confidence := 0, failedReason := none }

def claimStore : Store :=
  { tasks := [taskOldA, taskOldB], workers := [fleetW1], logs := [],
    detections := [], sent := [], cooldownUntil := none }

/-- Whether some selected row shares the id of t (the sequential UPDATE
loops hit a row exactly when a selected row carries its id). -/
def hitsId (vs : List Task) (t : Task) : Bool :=
  vs.any (fun v => decide (t.id = v.id))

/-- The notification packet of the pending-timeout loop. -/
def pendingNote (v : Task) : SentNote :=
  { userId := v.uploaderId, mediaId := v.id, status := MediaStatus.FAILED.value,
    worker := none, imgUrl := none, address := none, failedReason := none }

/-- The notification packet of the orphan-recovery loop. -/
def reaperNote (v : Task) : SentNote :=
  { userId := v.uploaderId, mediaId := v.id, status := MediaStatus.UPLOADED.value,
    worker := none, imgUrl := none, address := none, failedReason := none }

/-- The StatusEvent of the orphan-recovery loop. -/
def reaperRecoveryLog (now : Nat) (v : Task) : MediaLog :=
  create_status_change_log v.id MediaStatus.UPLOADED none (some "reaper recovery") now

/-- The mutual-exclusion half the store maintains: every in-flight task
(EXTRACTING or PROCESSING) carries a non-null assigned_worker. -/
def workerInv (s : Store) : Prop :=
  ∀ t ∈ s.tasks, (t.status = MediaStatus.EXTRACTING ∨ t.status = MediaStatus.PROCESSING) →
    t.assignedWorker ≠ none


/-- The concrete run is reachable up to the PROCESSING state. -/
theorem reachable_runS4 : Reachable runS4 := by
  have h0 : Reachable runS0 := Reachable.init [fleetW1] none
  have h1 : Reachable runS1 := Reachable.ingest runS0 h0 1 7 0
  have h2 : Reachable runS2 :=
    Reachable.uploadOk runS1 h1 1 "media/7/2026-10-12/1_beach.jpg" 7 1
  have h3 : Reachable runS3 := Reachable.claim runS2 h2 "Titan-1" 2
  exact Reachable.extractOk runS3 h3 "Titan-1" 1 runMeta 3 (by decide)

/-- The concrete run is reachable up to the READY state. -/
theorem reachable_runS5 : Reachable runS5 :=
  Reachable.process runS4 reachable_runS4 "Titan-1" (StageOutcome.ok [runDet]) 1 4
    (by decide)

/-! ## Claim theorems -/

/-- C8: is_limited returns true iff a cooldown timestamp is stored and
lies in the future; while active the stored timestamp is untouched; once
the timestamp has passed (or none is stored) the call returns false and
the stored cooldown is cleared, with no other mechanism involved. -/
theorem rate_limit_gate_lazy_clear (cd : Option Nat) (now : Nat) :
    ((isHfRateLimited cd now).1 = true ↔ ∃ t, cd = some t ∧ now < t) ∧
    ((isHfRateLimited cd now).1 = true → (isHfRateLimited cd now).2 = cd) ∧
    (∀ t, cd = some t → t ≤ now → isHfRateLimited cd now = (false, none)) ∧
    ((isHfRateLimited cd now).1 = false → (isHfRateLimited cd now).2 = none) := by
  refine ⟨?_, ?_, ?_, ?_⟩
  · cases cd with
    | none => simp [isHfRateLimited]
    | some t =>
      simp only [isHfRateLimited]
      split_ifs with h <;> simp_all
  · cases cd with
    | none => simp [isHfRateLimited]
    | some t =>
      simp only [isHfRateLimited]
      split_ifs with h <;> simp_all
  · intro t hcd hle
    subst hcd
    simp only [isHfRateLimited]
    split_ifs with h
    · omega
    · rfl
  · cases cd with
    | none => simp [isHfRateLimited]
    | some t =>
      simp only [isHfRateLimited]
      split_ifs with h <;> simp_all

/-- Witness for C8 at a concrete expired cooldown. -/
theorem rate_limit_gate_lazy_clear_witness :
    isHfRateLimited (some 5) 9 = (false, none) :=
  (rate_limit_gate_lazy_clear (some 5) 9).2.2.1 5 rfl (by norm_num)

/-- The maximum confidence of a non-empty detection list is attained by
one of its elements. -/
theorem maxConf_mem (d : Detection) (ds : List Detection) :
    ∃ e ∈ d :: ds, maxConf (d :: ds) = e.confidence := by
  induction ds generalizing d with
  | nil => exact ⟨d, List.mem_cons_self d [], rfl⟩
  | cons e es ih =>
    obtain ⟨f, hf, hval⟩ := ih e
    rcases le_total d.confidence (maxConf (e :: es)) with h | h
    · refine ⟨f, List.mem_cons_of_mem d hf, ?_⟩
      show max d.confidence (maxConf (e :: es)) = f.confidence
      rw [max_eq_right h, hval]
    · refine ⟨d, List.mem_cons_self d _, ?_⟩
      show max d.confidence (maxConf (e :: es)) = d.confidence
      rw [max_eq_left h]

/-- Python round(x, 2) is exact on rationals that already have at most
two decimal places. -/
theorem pyRound2_exact (k : ℤ) : pyRound2 ((k : ℚ) / 100) = (k : ℚ) / 100 := by
  unfold pyRound2 roundHalfEven
  have h : ((k : ℚ) / 100) * 100 = (k : ℚ) := by
    field_simp
  rw [h, Int.floor_intCast]
  have h2 : (k : ℚ) - (k : ℚ) = 0 := sub_self _
  rw [if_neg (by rw [h2]; norm_num), round_intCast]

/-- C7: for detections as the processing stage produces them (confidence
a four-decimal fraction), a non-empty list yields has_trash true and a
confidence equal to the maximum detection confidence scaled to 0-100; an
empty list yields has_trash false and confidence 0. -/
theorem rollup_confidence_correct (t : Task) (dets : List Detection) (now : Nat)
    (hk : ∀ d ∈ dets, ∃ k : ℤ, d.confidence = (k : ℚ) / 10000) :
    (dets ≠ [] → (applyRollup t dets now).hasTrash = true ∧
      (applyRollup t dets now).confidence = maxConf dets * 100) ∧
    (dets = [] → (applyRollup t dets now).hasTrash = false ∧
      (applyRollup t dets now).confidence = 0) := by
  cases dets with
  | nil =>
    refine ⟨fun h => absurd rfl h, fun _ => ⟨rfl, rfl⟩⟩
  | cons d ds =>
    refine ⟨fun _ => ⟨rfl, ?_⟩, fun h => by cases h⟩
    show pyRound2 (maxConf (d :: ds) * 100) = maxConf (d :: ds) * 100
    obtain ⟨e, he, hval⟩ := maxConf_mem d ds
    obtain ⟨k, hke⟩ := hk e he
    have hconv : maxConf (d :: ds) * 100 = (k : ℚ) / 100 := by
      rw [hval, hke]; ring
    rw [hconv, pyRound2_exact]

/-- Witness for C7 at the detections of the spec example (0.9 and 0.6):
confidence 90 and has_trash true; and at the empty list: 0 and false. -/
theorem rollup_confidence_correct_witness :
    (applyRollup runTask0 [runDet, runDet06] 4).hasTrash = true ∧
    (applyRollup runTask0 [runDet, runDet06] 4).confidence = 90 ∧
    (applyRollup runTask0 [] 4).hasTrash = false ∧
    (applyRollup runTask0 [] 4).confidence = 0 := by
  have h := rollup_confidence_correct runTask0 [runDet, runDet06] 4 (by
    intro d hd
    simp only [List.mem_cons, List.not_mem_nil, or_false] at hd
    rcases hd with rfl | rfl
    · exact ⟨9000, by norm_num [runDet]⟩
    · exact ⟨6000, by norm_num [runDet06]⟩)
  have h0 := rollup_confidence_correct runTask0 [] 4 (by intro d hd; cases hd)
  obtain ⟨h1, h2⟩ := h.1 (by simp)
  refine ⟨h1, ?_, (h0.2 rfl).1, (h0.2 rfl).2⟩
  rw [h2]
  norm_num [maxConf, runDet, runDet06]

/-- C10: a task that is not image media (mime type not image/, remote
path without a known image extension) reaches READY with an empty
detection list: has_trash false, confidence 0, and no Detection row is
persisted. -/
theorem non_image_tasks_ready_without_detections (s : Store) (name : String)
    (gen : List Detection) (taskId now : Nat) (task : Task)
    (hfind : s.tasks.find? (fun u => u.id == taskId) = some task)
    (hni : isImageMedia task = false) :
    (finalizeTask name gen taskId now s).detections = s.detections ∧
    ∀ u ∈ (finalizeTask name gen taskId now s).tasks, u.id = taskId →
      u.status = MediaStatus.READY ∧ u.hasTrash = false ∧ u.confidence = 0 := by
  unfold finalizeTask
  rw [hfind]
  simp only [hni, if_false]
  constructor
  · simp
  · intro u hu hid
    simp only [List.mem_map] at hu
    obtain ⟨x, hx, rfl⟩ := hu
    by_cases hxid : x.id = taskId
    · rw [if_pos hxid]
      exact ⟨rfl, rfl, rfl⟩
    · rw [if_neg hxid] at hid
      exact absurd hid hxid


/-- Witness for C10: even when the generator would have produced a
detection, the mp4 task ends READY with no trash, zero confidence and no
persisted rows. -/
theorem non_image_tasks_ready_without_detections_witness :
    isImageMedia vidTask = false ∧
    (finalizeTask "Titan-1" [runDet] 2 5 vidStore).detections = vidStore.detections ∧
    (applyRollup vidTask [] 5).status = MediaStatus.READY ∧
    (applyRollup vidTask [] 5).hasTrash = false ∧
    (applyRollup vidTask [] 5).confidence = 0 := by
  have h := non_image_tasks_ready_without_detections vidStore "Titan-1" [runDet] 2 5
    vidTask (by decide) (by decide)
  have hmem : applyRollup vidTask [] 5 ∈ (finalizeTask "Titan-1" [runDet] 2 5 vidStore).tasks := by
    decide
  have hid : (applyRollup vidTask [] 5).id = 2 := by decide
  obtain ⟨h1, h2, h3⟩ := h.2 (applyRollup vidTask [] 5) hmem hid
  exact ⟨by decide, h.1, h1, h2, h3⟩

/-- C3 counterexample: at the reachable state runS4 the claimed task sits
in PROCESSING; when the processing stage raises, the caught iteration
leaves it in PROCESSING with its worker still assigned — it is not
transitioned to FAILED. -/
theorem processing_raise_keeps_processing_cex :
    Reachable runS4 ∧
    ((processingStage "Titan-1" (StageOutcome.raised "simulated database failure")
        1 4 runS4).tasks.map (fun t => (t.id, t.status, t.assignedWorker)))
      = [(1, MediaStatus.PROCESSING, some "Titan-1")] := by
  exact ⟨reachable_runS4, by decide⟩

/-- C3 amended: an error raised in the processing stage is caught at the
outermost loop boundary; the store is left exactly as it was, so the
task stays PROCESSING (never FAILED) with its assignment intact, and the
worker proceeds to its next iteration. -/
theorem processing_raise_is_caught_and_task_stays (s : Store) (name msg : String)
    (taskId now : Nat) (t : Task) (ht : t ∈ s.tasks)
    (hp : t.status = MediaStatus.PROCESSING) :
    processingStage name (StageOutcome.raised msg) taskId now s = s ∧
    ∃ u ∈ (processingStage name (StageOutcome.raised msg) taskId now s).tasks,
      u.id = t.id ∧ u.status = MediaStatus.PROCESSING ∧
      u.status ≠ MediaStatus.FAILED ∧ u.assignedWorker = t.assignedWorker := by
  refine ⟨rfl, t, ht, rfl, hp, ?_, rfl⟩
  rw [hp]
  exact fun h => by cases h

/-- Witness for C3 amended, at the concrete PROCESSING state runS4. -/
theorem processing_raise_is_caught_and_task_stays_witness :
    processingStage "Titan-1" (StageOutcome.raised "boom") 1 9 runS4 = runS4 :=
  (processing_raise_is_caught_and_task_stays runS4 "Titan-1" "boom" 1 9 runTask0
    (by decide) (by decide)).1

/-- C4 (code bug evaluation): neither the worker download-failure handler
nor the ingest upload-failure handler ever writes hf_cooldown_until —
set_hf_cooldown has no caller — so even an HTTP-429 RateLimited error
leaves the gate unset (compare with the value a set_hf_cooldown call
would have stored). -/
theorem set_cooldown_never_invoked (name : String) (taskId uploaderId : Nat)
    (e : ExtractErr) (now : Nat) (s : Store) :
    (extractionFailure name taskId uploaderId e now s).cooldownUntil = s.cooldownUntil ∧
    (hfUploadFailure taskId uploaderId now s).cooldownUntil = s.cooldownUntil ∧
    (extractionFailure "Titan-1" 1 7 ⟨true, "429 Too Many Requests"⟩ 3
      runS3).cooldownUntil = none ∧
    setHfCooldown 1 3 = some 3603 := by
  exact ⟨rfl, rfl, by decide, by decide⟩


/-- C6 (code bug evaluation): both the worker extraction-failure path and
the reaper pending-timeout path set status FAILED while leaving
failed_reason null — the reason text goes only into the StatusEvent
message. -/
theorem failed_transitions_leave_reason_null :
    ((extractionFailure "Titan-1" 1 7
        ⟨false, "HF_REPO_ID or HF_TOKEN environment variables are not set"⟩ 3
        runS3).tasks.map (fun t => (t.status, t.failedReason)))
      = [(MediaStatus.FAILED, none)] ∧
    ((reaperSweep 1000 pendStore).tasks.map (fun t => (t.status, t.failedReason)))
      = [(MediaStatus.FAILED, none)] := by
  exact ⟨by decide, by decide⟩

/-- Unfolding equation of pickOldest on a cons cell. -/
theorem pickOldest_cons (t : Task) (ts : List Task) :
    pickOldest (t :: ts) =
      match pickOldest ts with
      | none => if eligibleTask t then some (0, t) else none
      | some (i, b) =>
        if eligibleTask t then
          if t.createdAt ≤ b.createdAt then some (0, t) else some (i + 1, b)
        else some (i + 1, b) := rfl

/-- If the claim query returns no row, no row is eligible. -/
theorem pickOldest_eq_none {ts : List Task} (h : pickOldest ts = none) :
    ∀ t ∈ ts, ¬eligibleTask t := by
  induction ts with
  | nil => intro t ht; cases ht
  | cons t ts ih =>
    intro u hu
    rw [pickOldest_cons] at h
    cases hp : pickOldest ts with
    | none =>
      simp only [hp] at h
      by_cases he : eligibleTask t
      · rw [if_pos he] at h; cases h
      · rcases List.mem_cons.1 hu with rfl | hu2
        · exact he
        · exact ih hp u hu2
    | some p =>
      rcases p with ⟨i, b⟩
      simp only [hp] at h
      by_cases he : eligibleTask t
      · rw [if_pos he] at h
        by_cases hle : t.createdAt ≤ b.createdAt
        · rw [if_pos hle] at h; cases h
        · rw [if_neg hle] at h; cases h
      · rw [if_neg he] at h; cases h

/-- If every row is ineligible, the claim query returns no row. -/
theorem pickOldest_eq_none_of {ts : List Task} (h : ∀ t ∈ ts, ¬eligibleTask t) :
    pickOldest ts = none := by
  induction ts with
  | nil => rfl
  | cons t ts ih =>
    have htail : pickOldest ts = none :=
      ih (fun u hu => h u (List.mem_cons_of_mem t hu))
    unfold pickOldest
    rw [htail]
    exact if_neg (h t (List.mem_cons_self t ts))

/-- Characterization of a successful claim query: the returned row sits
at the returned index, is eligible, and has minimal created_at among all
eligible rows. -/
theorem pickOldest_eq_some {ts : List Task} {i : Nat} {b : Task}
    (h : pickOldest ts = some (i, b)) :
    ts[i]? = some b ∧ eligibleTask b ∧
      ∀ u ∈ ts, eligibleTask u → b.createdAt ≤ u.createdAt := by
  induction ts generalizing i b with
  | nil => cases h
  | cons t ts ih =>
    rw [pickOldest_cons] at h
    cases hp : pickOldest ts with
    | none =>
      simp only [hp] at h
      by_cases he : eligibleTask t
      · rw [if_pos he] at h
        injection h with h2
        injection h2 with hi hb
        subst hi; subst hb
        refine ⟨by simp, he, ?_⟩
        intro u hu hue
        rcases List.mem_cons.1 hu with rfl | hu2
        · exact le_refl _
        · exact absurd hue (pickOldest_eq_none hp u hu2)
      · rw [if_neg he] at h; cases h
    | some p =>
      rcases p with ⟨j, c⟩
      simp only [hp] at h
      obtain ⟨hjget, hce, hcmin⟩ := ih hp
      by_cases he : eligibleTask t
      · rw [if_pos he] at h
        by_cases hle : t.createdAt ≤ c.createdAt
        · rw [if_pos hle] at h
          injection h with h2
          injection h2 with hi hb
          subst hi; subst hb
          refine ⟨by simp, he, ?_⟩
          intro u hu hue
          rcases List.mem_cons.1 hu with rfl | hu2
          · exact le_refl _
          · exact le_trans hle (hcmin u hu2 hue)
        · rw [if_neg hle] at h
          injection h with h2
          injection h2 with hi hb
          subst hi; subst hb
          refine ⟨by simpa using hjget, hce, ?_⟩
          intro u hu hue
          rcases List.mem_cons.1 hu with rfl | hu2
          · exact le_of_lt (lt_of_not_le hle)
          · exact hcmin u hu2 hue
      · rw [if_neg he] at h
        injection h with h2
        injection h2 with hi hb
        subst hi; subst hb
        refine ⟨by simpa using hjget, hce, ?_⟩
        intro u hu hue
        rcases List.mem_cons.1 hu with rfl | hu2
        · exact absurd hue he
        · exact hcmin u hu2 hue

/-- Distinct positions of a list with pairwise-distinct ids hold rows
with distinct ids. -/
theorem nodup_ids_ne {l : List Task} (h : (l.map (fun t => t.id)).Nodup)
    {i j : Nat} {a b : Task} (hij : i ≠ j) (ha : l[i]? = some a)
    (hb : l[j]? = some b) : a.id ≠ b.id := by
  intro hid
  have hi : i < l.length := by
    by_contra hlt
    rw [List.getElem?_eq_none (le_of_not_lt hlt)] at ha; cases ha
  have hj : j < l.length := by
    by_contra hlt
    rw [List.getElem?_eq_none (le_of_not_lt hlt)] at hb; cases hb
  have hmi : (l.map (fun t => t.id))[i]? = some a.id := by
    rw [List.getElem?_map, ha]; rfl
  have hmj : (l.map (fun t => t.id))[j]? = some b.id := by
    rw [List.getElem?_map, hb]; rfl
  have hlen : ∀ k, k < l.length → k < (l.map (fun t => t.id)).length := by
    intro k hk; simpa using hk
  rcases lt_trichotomy i j with hlt | heq | hgt
  · exact (List.nodup_iff_getElem?_ne_getElem?.mp h) i j hlt (hlen j hj)
      (by rw [hmi, hmj, hid])
  · exact hij heq
  · exact (List.nodup_iff_getElem?_ne_getElem?.mp h) j i hgt (hlen i hi)
      (by rw [hmi, hmj, hid])

/-- C2: a successful claim returns the single oldest eligible (QUEUED,
unassigned) row moved to EXTRACTING with assigned_worker stamped, and
that row is the only one changed; with no eligible row the store is
untouched and nothing is returned; and a second claim on the resulting
store never receives the same task. -/
theorem claim_next_correct (name : String) (now : Nat) (s : Store)
    (hids : (s.tasks.map (fun t => t.id)).Nodup) :
    (∀ t2 s2, claimNext name now s = (some t2, s2) →
      t2.status = MediaStatus.EXTRACTING ∧ t2.assignedWorker = some name ∧
      ∃ i t0, s.tasks[i]? = some t0 ∧
        t2 = claimTask name now t0 ∧ eligibleTask t0 ∧
        (∀ u ∈ s.tasks, eligibleTask u → t0.createdAt ≤ u.createdAt) ∧
        s2.tasks = s.tasks.set i t2) ∧
    (∀ s2, claimNext name now s = (none, s2) →
      s2 = s ∧ ∀ t ∈ s.tasks, ¬eligibleTask t) ∧
    (∀ name2 now2 t2 t3 s2 s3, claimNext name now s = (some t2, s2) →
      claimNext name2 now2 s2 = (some t3, s3) → t2.id ≠ t3.id) := by
  refine ⟨?_, ?_, ?_⟩
  · intro t2 s2 heq
    unfold claimNext at heq
    cases hp : pickOldest s.tasks with
    | none =>
      simp only [hp] at heq
      injection heq with ha _
      cases ha
    | some p =>
      rcases p with ⟨i, b⟩
      simp only [hp] at heq
      injection heq with ha hb
      injection ha with ha2
      subst ha2
      obtain ⟨hget, hbe, hbmin⟩ := pickOldest_eq_some hp
      refine ⟨rfl, rfl, i, b, hget, rfl, hbe, hbmin, ?_⟩
      rw [← hb]
  · intro s2 heq
    unfold claimNext at heq
    cases hp : pickOldest s.tasks with
    | some p =>
      rcases p with ⟨i, b⟩
      simp only [hp] at heq
      injection heq with ha _
      cases ha
    | none =>
      simp only [hp] at heq
      injection heq with _ hb
      exact ⟨hb.symm, pickOldest_eq_none hp⟩
  · intro name2 now2 t2 t3 s2 s3 h1 h2
    unfold claimNext at h1
    cases hp : pickOldest s.tasks with
    | none =>
      simp only [hp] at h1
      injection h1 with ha _
      cases ha
    | some p =>
      rcases p with ⟨i, b⟩
      simp only [hp] at h1
      injection h1 with he1 he2
      injection he1 with he1b
      subst he1b
      obtain ⟨hget, hbe, _⟩ := pickOldest_eq_some hp
      unfold claimNext at h2
      cases hq : pickOldest s2.tasks with
      | none =>
        simp only [hq] at h2
        injection h2 with ha _
        cases ha
      | some q =>
        rcases q with ⟨j, c⟩
        simp only [hq] at h2
        injection h2 with hf1 _
        injection hf1 with hf1b
        subst hf1b
        obtain ⟨hcget, hce, _⟩ := pickOldest_eq_some hq
        have hs2tasks : s2.tasks = s.tasks.set i (claimTask name now b) := by
          rw [← he2]
        rw [hs2tasks] at hcget
        have hi : i < s.tasks.length := by
          by_contra hlt
          rw [List.getElem?_eq_none (le_of_not_lt hlt)] at hget; cases hget
        by_cases hij : i = j
        · subst hij
          rw [List.getElem?_set_self hi] at hcget
          have hcb : c = claimTask name now b := (Option.some.inj hcget).symm
          rw [hcb] at hce
          exact absurd hce.1 (by intro hcon; cases hcon)
        · rw [List.getElem?_set_ne hij] at hcget
          show (claimTask name now b).id ≠ (claimTask name2 now2 c).id
          have hbid : (claimTask name now b).id = b.id := rfl
          have hcid : (claimTask name2 now2 c).id = c.id := rfl
          rw [hbid, hcid]
          exact nodup_ids_ne hids hij hget hcget


/-- Witness for C2: on a store with two queued rows the claim picks the
older one (id 11) and moves it to EXTRACTING with the worker stamped. -/
theorem claim_next_correct_witness :
    (claimNext "Titan-1" 9 claimStore).1 = some (claimTask "Titan-1" 9 taskOldB) ∧
    (claimTask "Titan-1" 9 taskOldB).status = MediaStatus.EXTRACTING ∧
    (claimTask "Titan-1" 9 taskOldB).assignedWorker = some "Titan-1" := by
  have h := claim_next_correct "Titan-1" 9 claimStore (by decide)
  have hc : claimNext "Titan-1" 9 claimStore
      = (some (claimTask "Titan-1" 9 taskOldB), (claimNext "Titan-1" 9 claimStore).2) := by
    decide
  obtain ⟨hst, hw, _⟩ := h.1 _ _ hc
  exact ⟨by rw [hc], hst, hw⟩

/-- C1 counterexample: the reachable state runS5 holds a READY task whose
assigned_worker is still Titan-1 — the completion path never clears the
assignment, so non-null assigned_worker is not equivalent to being in
EXTRACTING/PROCESSING. -/
theorem ready_task_keeps_assigned_worker_cex :
    Reachable runS5 ∧
    (runS5.tasks.map (fun t => (t.status, t.assignedWorker)))
      = [(MediaStatus.READY, some "Titan-1")] := by
  exact ⟨reachable_runS5, by decide⟩

/-! ## Reaper sweep characterization -/

theorem failPendingTask_id (now : Nat) (t : Task) :
    (failPendingTask now t).id = t.id := rfl

theorem demoteTask_id (now : Nat) (t : Task) :
    (demoteTask now t).id = t.id := rfl

theorem failPendingTask_idem (now : Nat) (t : Task) :
    failPendingTask now (failPendingTask now t) = failPendingTask now t := rfl

theorem demoteTask_idem (now : Nat) (t : Task) :
    demoteTask now (demoteTask now t) = demoteTask now t := rfl

theorem hitsId_of_mem {vs : List Task} {t : Task} (h : t ∈ vs) :
    hitsId vs t = true := by
  unfold hitsId
  rw [List.any_eq_true]
  exact ⟨t, h, by simp⟩

theorem exists_of_hitsId {vs : List Task} {t : Task} (h : hitsId vs t = true) :
    ∃ v ∈ vs, t.id = v.id := by
  unfold hitsId at h
  rw [List.any_eq_true] at h
  obtain ⟨v, hv, he⟩ := h
  exact ⟨v, hv, of_decide_eq_true he⟩

theorem hitsId_congr_id {vs : List Task} {a b : Task} (h : a.id = b.id) :
    hitsId vs a = hitsId vs b := by
  unfold hitsId
  congr 1
  funext v
  rw [h]

/-- Effect of the pending-timeout loop on the store: each selected row
is hit exactly by the updates carrying its id; one FAILED StatusEvent
and one FAILED notification are appended per selected row; workers,
detections and the cooldown are untouched. -/
theorem pendingSteps_spec (now : Nat) (vs : List Task) (s : Store) :
    (vs.foldl (pendingFailStep now) s).tasks
        = s.tasks.map (fun t => if hitsId vs t then failPendingTask now t else t) ∧
    (vs.foldl (pendingFailStep now) s).workers = s.workers ∧
    (vs.foldl (pendingFailStep now) s).detections = s.detections ∧
    (vs.foldl (pendingFailStep now) s).cooldownUntil = s.cooldownUntil ∧
    (∃ ds, (vs.foldl (pendingFailStep now) s).logs = s.logs ++ ds ∧
      ds.map (fun l => l.mediaId) = vs.map (fun v => v.id)) ∧
    (∃ ns, (vs.foldl (pendingFailStep now) s).sent = s.sent ++ ns ∧
      ns.map (fun n => n.mediaId) = vs.map (fun v => v.id)) := by
  induction vs generalizing s with
  | nil =>
    refine ⟨?_, rfl, rfl, rfl, ⟨[], by simp, rfl⟩, ⟨[], by simp, rfl⟩⟩
    have : (fun t => if hitsId [] t then failPendingTask now t else t) = fun t => t := by
      funext t
      rfl
    rw [this]
    simp
  | cons v vs ih =>
    have hfold : (v :: vs).foldl (pendingFailStep now) s
        = vs.foldl (pendingFailStep now) (pendingFailStep now s v) := rfl
    obtain ⟨ht, hw, hd, hc, ⟨ds, hl, hlm⟩, ⟨ns, hsent, hsm⟩⟩ :=
      ih (pendingFailStep now s v)
    have hstep_tasks : (pendingFailStep now s v).tasks
        = s.tasks.map (fun t => if t.id = v.id then failPendingTask now t else t) := rfl
    refine ⟨?_, ?_, ?_, ?_, ?_, ?_⟩
    · rw [hfold, ht, hstep_tasks, List.map_map]
      congr 1
      funext t
      show (if hitsId vs (if t.id = v.id then failPendingTask now t else t)
            then failPendingTask now (if t.id = v.id then failPendingTask now t else t)
            else (if t.id = v.id then failPendingTask now t else t))
          = if hitsId (v :: vs) t then failPendingTask now t else t
      have hcons : hitsId (v :: vs) t = (decide (t.id = v.id) || hitsId vs t) := rfl
      by_cases hv : t.id = v.id
      · rw [if_pos hv]
        rw [hitsId_congr_id (failPendingTask_id now t)]
        rw [hcons, decide_eq_true hv, Bool.true_or]
        by_cases hvs : hitsId vs t
        · rw [if_pos hvs, failPendingTask_idem, if_pos rfl]
        · rw [if_neg (by simp [hvs]), if_pos rfl]
      · rw [if_neg hv, hcons, decide_eq_false hv, Bool.false_or]
    · rw [hfold, hw]; rfl
    · rw [hfold, hd]; rfl
    · rw [hfold, hc]; rfl
    · refine ⟨create_status_change_log v.id MediaStatus.FAILED none
        (some (buildPendingTimeoutDetail s.logs v.id)) now :: ds, ?_, ?_⟩
      · rw [hfold, hl]
        show (s.logs ++ [_]) ++ ds = _
        rw [List.append_assoc]
        rfl
      · simp only [List.map_cons, hlm]
        rfl
    · refine ⟨pendingNote v :: ns, ?_, ?_⟩
      · rw [hfold, hsent]
        show (s.sent ++ [pendingNote v]) ++ ns = _
        rw [List.append_assoc]
        rfl
      · simp only [List.map_cons, hsm]
        rfl

/-- Effect of the orphan-recovery loop on the store: each selected row
is demoted by the updates carrying its id; the recovery StatusEvents and
notifications are appended in selection order; workers, detections and
the cooldown are untouched. -/
theorem zombieSteps_spec (now : Nat) (vs : List Task) (s : Store) :
    (vs.foldl (zombieStep now) s).tasks
        = s.tasks.map (fun t => if hitsId vs t then demoteTask now t else t) ∧
    (vs.foldl (zombieStep now) s).workers = s.workers ∧
    (vs.foldl (zombieStep now) s).detections = s.detections ∧
    (vs.foldl (zombieStep now) s).cooldownUntil = s.cooldownUntil ∧
    (vs.foldl (zombieStep now) s).logs = s.logs ++ vs.map (reaperRecoveryLog now) ∧
    (vs.foldl (zombieStep now) s).sent = s.sent ++ vs.map reaperNote := by
  induction vs generalizing s with
  | nil =>
    refine ⟨?_, rfl, rfl, rfl, by simp, by simp⟩
    have : (fun t => if hitsId [] t then demoteTask now t else t) = fun t => t := by
      funext t
      rfl
    rw [this]
    simp
  | cons v vs ih =>
    have hfold : (v :: vs).foldl (zombieStep now) s
        = vs.foldl (zombieStep now) (zombieStep now s v) := rfl
    obtain ⟨ht, hw, hd, hc, hl, hsent⟩ := ih (zombieStep now s v)
    have hstep_tasks : (zombieStep now s v).tasks
        = s.tasks.map (fun t => if t.id = v.id then demoteTask now t else t) := rfl
    refine ⟨?_, ?_, ?_, ?_, ?_, ?_⟩
    · rw [hfold, ht, hstep_tasks, List.map_map]
      congr 1
      funext t
      show (if hitsId vs (if t.id = v.id then demoteTask now t else t)
            then demoteTask now (if t.id = v.id then demoteTask now t else t)
            else (if t.id = v.id then demoteTask now t else t))
          = if hitsId (v :: vs) t then demoteTask now t else t
      have hcons : hitsId (v :: vs) t = (decide (t.id = v.id) || hitsId vs t) := rfl
      by_cases hv : t.id = v.id
      · rw [if_pos hv]
        rw [hitsId_congr_id (demoteTask_id now t)]
        rw [hcons, decide_eq_true hv, Bool.true_or]
        by_cases hvs : hitsId vs t
        · rw [if_pos hvs, demoteTask_idem, if_pos rfl]
        · rw [if_neg (by simp [hvs]), if_pos rfl]
      · rw [if_neg hv, hcons, decide_eq_false hv, Bool.false_or]
    · rw [hfold, hw]; rfl
    · rw [hfold, hd]; rfl
    · rw [hfold, hc]; rfl
    · rw [hfold, hl]
      show (s.logs ++ [reaperRecoveryLog now v]) ++ vs.map (reaperRecoveryLog now) = _
      rw [List.append_assoc]
      rfl
    · rw [hfold, hsent]
      show (s.sent ++ [reaperNote v]) ++ vs.map reaperNote = _
      rw [List.append_assoc]
      rfl

theorem hitsId_eq_true_of {vs : List Task} {t v : Task} (hv : v ∈ vs)
    (h : t.id = v.id) : hitsId vs t = true := by
  unfold hitsId
  rw [List.any_eq_true]
  exact ⟨v, hv, decide_eq_true h⟩

theorem eq_of_same_id {l : List Task} (h : (l.map (fun t => t.id)).Nodup)
    {a b : Task} (ha : a ∈ l) (hb : b ∈ l) (hid : a.id = b.id) : a = b :=
  List.inj_on_of_nodup_map h ha hb hid

theorem mem_pendingSelected {now : Nat} {s : Store} {v : Task}
    (h : v ∈ pendingSelected now s) :
    v ∈ s.tasks ∧ v.status = MediaStatus.PENDING ∧ v.updatedAt ≤ now - 900 := by
  have h2 := List.mem_filter.1 h
  exact ⟨h2.1, of_decide_eq_true h2.2⟩

theorem mem_zombieSelected {now : Nat} {s : Store} {v : Task}
    (h : v ∈ zombieSelected now s) :
    v ∈ s.tasks ∧ isZombie (staleWorkerNames s.workers (now - 600)) v = true := by
  unfold zombieSelected at h
  cases hoff : staleWorkerNames s.workers (now - 600) with
  | nil => simp only [hoff] at h; cases h
  | cons a l =>
    simp only [hoff] at h
    exact List.mem_filter.1 h

theorem assignedIn_nil (t : Task) : assignedIn [] t = false := by
  unfold assignedIn
  cases t.assignedWorker with
  | none => rfl
  | some w => simp

theorem zombieSelected_of {now : Nat} {s : Store} {t : Task}
    (ht : t ∈ s.tasks)
    (hz : isZombie (staleWorkerNames s.workers (now - 600)) t = true) :
    t ∈ zombieSelected now s := by
  have hne : staleWorkerNames s.workers (now - 600) ≠ [] := by
    intro h0
    rw [h0] at hz
    unfold isZombie at hz
    rw [assignedIn_nil, Bool.and_false] at hz
    cases hz
  unfold zombieSelected
  cases hoff : staleWorkerNames s.workers (now - 600) with
  | nil => exact absurd hoff hne
  | cons a l =>
    rw [hoff] at hz
    exact List.mem_filter.2 ⟨ht, hz⟩

theorem filter_delta_nil {β : Type} (key : β → Nat) {ds : List β} {vs : List Task}
    (hm : ds.map key = vs.map (fun v => v.id)) {t : Task}
    (hmiss : hitsId vs t = false) :
    ds.filter (fun e => decide (key e = t.id)) = [] := by
  rw [List.filter_eq_nil_iff]
  intro e he hp
  have h1 : key e ∈ ds.map key := List.mem_map_of_mem key he
  rw [hm] at h1
  obtain ⟨v, hv, hvid⟩ := List.mem_map.1 h1
  have hkey : key e = t.id := of_decide_eq_true hp
  have htv : t.id = v.id := by rw [← hkey, hvid]
  rw [hitsId_eq_true_of hv htv] at hmiss
  cases hmiss

theorem filter_map_delta_nil {β : Type} (key : β → Nat) (f : Task → β)
    (hf : ∀ v, key (f v) = v.id) {vs : List Task} {t : Task}
    (hmiss : hitsId vs t = false) :
    (vs.map f).filter (fun e => decide (key e = t.id)) = [] := by
  refine filter_delta_nil key ?_ hmiss
  rw [List.map_map]
  exact List.map_congr_left (fun v _ => hf v)

theorem filter_map_key_singleton {β : Type} (key : β → Nat) (f : Task → β)
    (hf : ∀ v, key (f v) = v.id) {l : List Task}
    (hn : (l.map (fun v => v.id)).Nodup) {t : Task} (ht : t ∈ l) :
    (l.map f).filter (fun e => decide (key e = t.id)) = [f t] := by
  induction l with
  | nil => cases ht
  | cons v vs ih =>
    rw [List.map_cons] at hn
    have hn1 : v.id ∉ vs.map (fun v => v.id) := (List.nodup_cons.1 hn).1
    have hn2 : (vs.map (fun v => v.id)).Nodup := (List.nodup_cons.1 hn).2
    rw [List.map_cons, List.filter_cons]
    by_cases hv : v.id = t.id
    · have hteq : t = v := by
        rcases List.mem_cons.1 ht with rfl | htv
        · rfl
        · exact absurd (hv ▸ List.mem_map_of_mem (fun v => v.id) htv) hn1
      rw [if_pos (by rw [hf v, hv]; exact decide_eq_true rfl)]
      have htail : (vs.map f).filter (fun e => decide (key e = t.id)) = [] := by
        rw [List.filter_eq_nil_iff]
        intro e he hp
        obtain ⟨u, hu, rfl⟩ := List.mem_map.1 he
        have : u.id = t.id := by rw [← hf u]; exact of_decide_eq_true hp
        rw [hteq] at this
        exact hn1 (this ▸ List.mem_map_of_mem (fun v => v.id) hu)
      rw [htail, hteq]
    · have htv : t ∈ vs := by
        rcases List.mem_cons.1 ht with rfl | htv
        · exact absurd rfl hv
        · exact htv
      rw [if_neg (by rw [hf v]; simp [hv])]
      exact ih hn2 htv

/-- Unfolding the sweep when the gate reports limited: nothing runs and
the stored cooldown (still in the future) is untouched. -/
theorem reaperSweep_eq_of_gate_true {s : Store} {now : Nat}
    (h : (isHfRateLimited s.cooldownUntil now).1 = true) :
    reaperSweep now s = s := by
  unfold reaperSweep
  cases hm : isHfRateLimited s.cooldownUntil now with
  | mk b cd =>
    rw [hm] at h
    simp only at h
    subst h
    rfl

/-- Unfolding the sweep when the gate reports not limited: the check may
lazily clear the cooldown, then the two phases run. -/
theorem reaperSweep_eq_of_gate_false {s : Store} {now : Nat}
    (h : (isHfRateLimited s.cooldownUntil now).1 = false) :
    reaperSweep now s
      = zombiePhase now (pendingPhase now
          { s with cooldownUntil := (isHfRateLimited s.cooldownUntil now).2 }) := by
  unfold reaperSweep
  cases hm : isHfRateLimited s.cooldownUntil now with
  | mk b cd =>
    rw [hm] at h
    simp only at h
    subst h
    rfl

theorem gate_snd_none_of_fst_false {c : Option Nat} {now : Nat}
    (h : (isHfRateLimited c now).1 = false) :
    (isHfRateLimited c now).2 = none := by
  cases c with
  | none => rfl
  | some t =>
    simp only [isHfRateLimited] at h ⊢
    by_cases hlt : now < t
    · rw [if_pos hlt] at h; simp at h
    · rw [if_neg hlt]

/-- C5: in a sweep that runs, every in-flight task whose assigned worker
is stale is demoted back to the queued state — not FAILED — with
assigned_worker cleared, and exactly one recovery StatusEvent plus one
owner notification are appended for it; an in-flight task whose assigned
worker is not stale (or absent) is untouched, with no event appended. -/
theorem reaper_demotes_stale_assigned_tasks (s : Store) (now : Nat)
    (hids : (s.tasks.map (fun t => t.id)).Nodup)
    (hgate : (isHfRateLimited s.cooldownUntil now).1 = false)
    (t : Task) (ht : t ∈ s.tasks)
    (hstatus : t.status = MediaStatus.EXTRACTING ∨ t.status = MediaStatus.PROCESSING) :
    ((∃ w, t.assignedWorker = some w ∧
        w ∈ staleWorkerNames s.workers (now - 600)) →
      demoteTask now t ∈ (reaperSweep now s).tasks ∧
      (demoteTask now t).status = MediaStatus.UPLOADED ∧
      (demoteTask now t).assignedWorker = none ∧
      (reaperSweep now s).logs.filter (fun l => decide (l.mediaId = t.id))
        = s.logs.filter (fun l => decide (l.mediaId = t.id))
            ++ [reaperRecoveryLog now t] ∧
      (reaperSweep now s).sent.filter (fun n => decide (n.mediaId = t.id))
        = s.sent.filter (fun n => decide (n.mediaId = t.id)) ++ [reaperNote t]) ∧
    ((∀ w, t.assignedWorker = some w →
        w ∉ staleWorkerNames s.workers (now - 600)) →
      t ∈ (reaperSweep now s).tasks ∧
      (reaperSweep now s).logs.filter (fun l => decide (l.mediaId = t.id))
        = s.logs.filter (fun l => decide (l.mediaId = t.id)) ∧
      (reaperSweep now s).sent.filter (fun n => decide (n.mediaId = t.id))
        = s.sent.filter (fun n => decide (n.mediaId = t.id))) := by
  have hsweep := reaperSweep_eq_of_gate_false hgate
  set sg : Store := { s with cooldownUntil := (isHfRateLimited s.cooldownUntil now).2 }
    with hsgdef
  obtain ⟨hpt, hpw, _, _, ⟨ds, hpl, hplm⟩, ⟨ns, hps, hpsm⟩⟩ :=
    pendingSteps_spec now (pendingSelected now sg) sg
  set sp : Store := pendingPhase now sg with hspdef
  have hpt2 : sp.tasks = s.tasks.map
      (fun u => if hitsId (pendingSelected now sg) u then failPendingTask now u else u) :=
    hpt
  have hpw2 : sp.workers = s.workers := hpw
  have hpl2 : sp.logs = s.logs ++ ds := hpl
  have hps2 : sp.sent = s.sent ++ ns := hps
  -- t is not hit by the pending loop
  have htp : hitsId (pendingSelected now sg) t = false := by
    rw [← Bool.not_eq_true]
    intro hcon
    obtain ⟨v, hv, hvid⟩ := exists_of_hitsId hcon
    obtain ⟨hvmem, hvpend, _⟩ := mem_pendingSelected hv
    have hvt : t = v := eq_of_same_id hids ht (show v ∈ s.tasks from hvmem) hvid
    rw [← hvt] at hvpend
    rcases hstatus with h | h <;> rw [h] at hvpend <;> cases hvpend
  -- t survives the pending phase unchanged
  have htsp : t ∈ sp.tasks := by
    rw [hpt2]
    refine List.mem_map.2 ⟨t, ht, ?_⟩
    rw [htp]
    simp
  -- ids are preserved by the pending phase
  have hid_pres : ∀ x : Task,
      ((fun u => if hitsId (pendingSelected now sg) u then failPendingTask now u else u) x).id
        = x.id := by
    intro x
    show (if hitsId (pendingSelected now sg) x then failPendingTask now x else x).id = x.id
    by_cases hx : hitsId (pendingSelected now sg) x = true
    · rw [if_pos hx]; rfl
    · rw [if_neg hx]
  have hsp_ids : sp.tasks.map (fun u => u.id) = s.tasks.map (fun u => u.id) := by
    rw [hpt2, List.map_map]
    exact List.map_congr_left (fun x _ => hid_pres x)
  have hsp_nodup : (sp.tasks.map (fun u => u.id)).Nodup := by
    rw [hsp_ids]; exact hids
  -- the selected pending rows never carry the id of t
  have hds_nil : ds.filter (fun l => decide (l.mediaId = t.id)) = [] :=
    filter_delta_nil (fun l : MediaLog => l.mediaId) hplm htp
  have hns_nil : ns.filter (fun n => decide (n.mediaId = t.id)) = [] :=
    filter_delta_nil (fun n : SentNote => n.mediaId) hpsm htp
  obtain ⟨hzt, hzw, _, _, hzl, hzs⟩ :=
    zombieSteps_spec now (zombieSelected now sp) sp
  have hsweep2 : reaperSweep now s
      = (zombieSelected now sp).foldl (zombieStep now) sp := hsweep
  have hoffeq : staleWorkerNames sp.workers (now - 600)
      = staleWorkerNames s.workers (now - 600) := by rw [hpw2]
  have hzsub : List.Sublist (zombieSelected now sp) sp.tasks := by
    unfold zombieSelected
    cases hoff : staleWorkerNames sp.workers (now - 600) with
    | nil => simp
    | cons a l => exact List.filter_sublist _
  have hzsel_nodup : ((zombieSelected now sp).map (fun u => u.id)).Nodup :=
    hsp_nodup.sublist (hzsub.map (fun u => u.id))
  constructor
  · rintro ⟨w, hw, hwin⟩
    have hzcond : isZombie (staleWorkerNames sp.workers (now - 600)) t = true := by
      unfold isZombie
      rw [decide_eq_true hstatus, Bool.true_and]
      unfold assignedIn
      rw [hw]
      rw [hoffeq]
      exact decide_eq_true hwin
    have htz : t ∈ zombieSelected now sp := zombieSelected_of htsp hzcond
    refine ⟨?_, rfl, rfl, ?_, ?_⟩
    · rw [hsweep2, hzt]
      refine List.mem_map.2 ⟨t, htsp, ?_⟩
      rw [hitsId_of_mem htz]
      simp
    · rw [hsweep2, hzl, hpl2, List.append_assoc, List.filter_append,
        List.filter_append, hds_nil]
      rw [filter_map_key_singleton (fun l : MediaLog => l.mediaId) (reaperRecoveryLog now)
        (fun v => rfl) ?_ ?_]
      · simp
      · exact hzsel_nodup
      · exact htz
    · rw [hsweep2, hzs, hps2, List.append_assoc, List.filter_append,
        List.filter_append, hns_nil]
      rw [filter_map_key_singleton (fun n : SentNote => n.mediaId) reaperNote
        (fun v => rfl) ?_ ?_]
      · simp
      · exact hzsel_nodup
      · exact htz
  · intro hnst
    have hzcond : isZombie (staleWorkerNames sp.workers (now - 600)) t = false := by
      unfold isZombie assignedIn
      cases hwv : t.assignedWorker with
      | none => simp
      | some w =>
        rw [hoffeq]
        have := hnst w hwv
        simp [this]
    have htz : hitsId (zombieSelected now sp) t = false := by
      rw [← Bool.not_eq_true]
      intro hcon
      obtain ⟨v, hv, hvid⟩ := exists_of_hitsId hcon
      obtain ⟨hvmem, hvz⟩ := mem_zombieSelected hv
      have hvt : t = v := by
        rw [hpt2] at hvmem
        obtain ⟨x, hx, hgx⟩ := List.mem_map.1 hvmem
        have hxid : v.id = x.id := by rw [← hgx]; exact hid_pres x
        have hxt : x = t := eq_of_same_id hids hx ht (by rw [← hxid, ← hvid])
        subst hxt
        rw [← hgx]
        by_cases hhx : hitsId (pendingSelected now sg) x = true
        · rw [hhx] at htp; cases htp
        · rw [if_neg hhx]
      rw [← hvt] at hvz
      rw [hvz] at hzcond
      cases hzcond
    refine ⟨?_, ?_, ?_⟩
    · rw [hsweep2, hzt]
      refine List.mem_map.2 ⟨t, htsp, ?_⟩
      rw [htz]
      simp
    · rw [hsweep2, hzl, hpl2, List.append_assoc, List.filter_append,
        List.filter_append, hds_nil]
      rw [filter_map_delta_nil (fun l : MediaLog => l.mediaId) (reaperRecoveryLog now)
        (fun v => rfl) htz]
      simp
    · rw [hsweep2, hzs, hps2, List.append_assoc, List.filter_append,
        List.filter_append, hns_nil]
      rw [filter_map_delta_nil (fun n : SentNote => n.mediaId) reaperNote (fun v => rfl) htz]
      simp

/-- Witness for C5: at sweep time 700 the task abandoned by the stale
worker Titan-2 is demoted to the queued state with its assignment
cleared. -/
theorem reaper_demotes_stale_assigned_tasks_witness :
    demoteTask 700 staleTask ∈ (reaperSweep 700 staleStore).tasks ∧
    (demoteTask 700 staleTask).status = MediaStatus.UPLOADED ∧
    (demoteTask 700 staleTask).assignedWorker = none := by
  have h := reaper_demotes_stale_assigned_tasks staleStore 700 (by decide) (by decide)
    staleTask (by decide) (by decide)
  obtain ⟨h1, h2, h3, _, _⟩ := h.1 ⟨"Titan-2", by decide, by decide⟩
  exact ⟨h1, h2, h3⟩

theorem store_set_cooldown_self {s : Store} (h : s.cooldownUntil = none) :
    ({ s with cooldownUntil := none } : Store) = s := by
  cases s
  simp_all

/-- A store whose gate is clear and whose selections are empty is a
fixed point of the sweep. -/
theorem sweep_body_fixpoint (now : Nat) (s1 : Store)
    (hp : pendingSelected now s1 = [])
    (hz : zombieSelected now s1 = [])
    (hc : s1.cooldownUntil = none) :
    reaperSweep now s1 = s1 := by
  have hg : (isHfRateLimited s1.cooldownUntil now).1 = false := by rw [hc]; rfl
  have hcd2 : (isHfRateLimited s1.cooldownUntil now).2 = none := by rw [hc]; rfl
  have hsw := reaperSweep_eq_of_gate_false hg
  rw [hcd2] at hsw
  rw [store_set_cooldown_self hc] at hsw
  have hpend : pendingPhase now s1 = s1 := by
    unfold pendingPhase
    rw [hp]
    rfl
  rw [hpend] at hsw
  have hzomb : zombiePhase now s1 = s1 := by
    unfold zombiePhase
    rw [hz]
    rfl
  rw [hzomb] at hsw
  exact hsw

/-- C9: the reaper sweep is idempotent: running it twice in succession
with the same clock and no interleaved activity produces exactly the
same store (statuses, assignments, StatusEvents, notifications) as
running it once. -/
theorem reaper_sweep_idempotent (now : Nat) (s : Store) :
    reaperSweep now (reaperSweep now s) = reaperSweep now s := by
  cases hb : (isHfRateLimited s.cooldownUntil now).1 with
  | true => rw [reaperSweep_eq_of_gate_true hb, reaperSweep_eq_of_gate_true hb]
  | false =>
    have hcd : (isHfRateLimited s.cooldownUntil now).2 = none :=
      gate_snd_none_of_fst_false hb
    have hsw := reaperSweep_eq_of_gate_false hb
    rw [hcd] at hsw
    set sg : Store := { s with cooldownUntil := none } with hsgdef
    obtain ⟨hpt, hpw, hpd, hpc, ⟨ds, hpl, hplm⟩, ⟨ns, hps, hpsm⟩⟩ :=
      pendingSteps_spec now (pendingSelected now sg) sg
    obtain ⟨hzt, hzw, hzd, hzc, hzl, hzs⟩ :=
      zombieSteps_spec now (zombieSelected now (pendingPhase now sg)) (pendingPhase now sg)
    have hpt2 : (pendingPhase now sg).tasks = s.tasks.map
        (fun u => if hitsId (pendingSelected now sg) u then failPendingTask now u else u) :=
      hpt
    have hpw2 : (pendingPhase now sg).workers = s.workers := hpw
    have hzt2 : (zombiePhase now (pendingPhase now sg)).tasks
        = (pendingPhase now sg).tasks.map
            (fun u => if hitsId (zombieSelected now (pendingPhase now sg)) u
              then demoteTask now u else u) := hzt
    have hzw2 : (zombiePhase now (pendingPhase now sg)).workers
        = (pendingPhase now sg).workers := hzw
    have hswt : (reaperSweep now s).tasks = (s.tasks.map
        (fun u => if hitsId (pendingSelected now sg) u then failPendingTask now u else u)).map
          (fun u => if hitsId (zombieSelected now (pendingPhase now sg)) u
            then demoteTask now u else u) := by
      rw [hsw, hzt2, hpt2]
    have hsww : (reaperSweep now s).workers = s.workers := by
      rw [hsw, hzw2, hpw2]
    have hswc : (reaperSweep now s).cooldownUntil = none := by
      rw [hsw]
      exact hzc.trans hpc
    -- any row of the swept store: either rewritten (FAILED / UPLOADED) or
    -- untouched with both selections missing it
    have hcases : ∀ u ∈ (reaperSweep now s).tasks,
        (∃ x, u = failPendingTask now x) ∨ (∃ x, u = demoteTask now x) ∨
        (u ∈ s.tasks ∧ hitsId (pendingSelected now sg) u = false ∧
          hitsId (zombieSelected now (pendingPhase now sg)) u = false) := by
      intro u hu
      rw [hswt] at hu
      obtain ⟨y, hy, hyu⟩ := List.mem_map.1 hu
      obtain ⟨x, hx, hxy⟩ := List.mem_map.1 hy
      by_cases h1 : hitsId (pendingSelected now sg) x = true
      · have hyx : y = failPendingTask now x := by
          rw [← hxy]
          show (if hitsId (pendingSelected now sg) x then failPendingTask now x else x) = _
          rw [if_pos h1]
        by_cases h2 : hitsId (zombieSelected now (pendingPhase now sg)) y = true
        · right; left
          refine ⟨y, ?_⟩
          rw [← hyu]
          show (if hitsId (zombieSelected now (pendingPhase now sg)) y
            then demoteTask now y else y) = _
          rw [if_pos h2]
        · left
          refine ⟨x, ?_⟩
          rw [← hyu]
          show (if hitsId (zombieSelected now (pendingPhase now sg)) y
            then demoteTask now y else y) = _
          rw [if_neg h2, hyx]
      · have hyx : y = x := by
          rw [← hxy]
          show (if hitsId (pendingSelected now sg) x then failPendingTask now x else x) = _
          rw [if_neg h1]
        by_cases h2 : hitsId (zombieSelected now (pendingPhase now sg)) y = true
        · right; left
          refine ⟨y, ?_⟩
          rw [← hyu]
          show (if hitsId (zombieSelected now (pendingPhase now sg)) y
            then demoteTask now y else y) = _
          rw [if_pos h2]
        · right; right
          have huy : u = x := by
            rw [← hyu]
            show (if hitsId (zombieSelected now (pendingPhase now sg)) y
              then demoteTask now y else y) = _
            rw [if_neg h2, hyx]
          subst huy
          rw [hyx] at h2
          exact ⟨hx, by rw [← Bool.not_eq_true]; exact h1,
            by rw [← Bool.not_eq_true]; exact h2⟩
    -- the second sweep selects nothing
    have hpsel2 : pendingSelected now (reaperSweep now s) = [] := by
      unfold pendingSelected
      rw [List.filter_eq_nil_iff]
      intro u hu hcon
      have hvict := of_decide_eq_true hcon
      rcases hcases u hu with ⟨x, rfl⟩ | ⟨x, rfl⟩ | ⟨hmem, hmiss1, _⟩
      · cases hvict.1
      · cases hvict.1
      · have : u ∈ pendingSelected now sg :=
          List.mem_filter.2 ⟨hmem, decide_eq_true hvict⟩
        rw [hitsId_of_mem this] at hmiss1
        cases hmiss1
    have hzsel2 : zombieSelected now (reaperSweep now s) = [] := by
      unfold zombieSelected
      cases hoff : staleWorkerNames (reaperSweep now s).workers (now - 600) with
      | nil => rfl
      | cons a l =>
        show List.filter (isZombie (a :: l)) (reaperSweep now s).tasks = []
        rw [List.filter_eq_nil_iff]
        intro u hu hcon
        have hparts := (Bool.and_eq_true _ _) ▸ hcon
        have hor := of_decide_eq_true hparts.1
        rcases hcases u hu with ⟨x, rfl⟩ | ⟨x, rfl⟩ | ⟨hmem, hmiss1, hmiss2⟩
        · rcases hor with h | h <;> cases h
        · rcases hor with h | h <;> cases h
        · have hoffsp : staleWorkerNames (pendingPhase now sg).workers (now - 600)
              = a :: l := by
            rw [hpw2, ← hsww, hoff]
          have husp : u ∈ (pendingPhase now sg).tasks := by
            rw [hpt2]
            refine List.mem_map.2 ⟨u, hmem, ?_⟩
            rw [hmiss1]
            simp
          have hzmem : u ∈ zombieSelected now (pendingPhase now sg) := by
            apply zombieSelected_of husp
            rw [hoffsp]
            exact hcon
          rw [hitsId_of_mem hzmem] at hmiss2
          cases hmiss2
    exact sweep_body_fixpoint now (reaperSweep now s) hpsel2 hzsel2 hswc

theorem applyRollup_status (t : Task) (dets : List Detection) (now : Nat) :
    (applyRollup t dets now).status = MediaStatus.READY := by
  cases dets <;> rfl

/-- The sweep only turns rows FAILED or UPLOADED (never creating a new
in-flight row), so it preserves the assignment invariant. -/
theorem reaperSweep_preserves_workerInv (now : Nat) (s : Store)
    (h : workerInv s) : workerInv (reaperSweep now s) := by
  cases hb : (isHfRateLimited s.cooldownUntil now).1 with
  | true => rw [reaperSweep_eq_of_gate_true hb]; exact h
  | false =>
    have hcd := gate_snd_none_of_fst_false hb
    have hsw := reaperSweep_eq_of_gate_false hb
    rw [hcd] at hsw
    set sg : Store := { s with cooldownUntil := none } with hsgdef
    obtain ⟨hpt, _, _, _, _, _⟩ := pendingSteps_spec now (pendingSelected now sg) sg
    obtain ⟨hzt, _, _, _, _, _⟩ :=
      zombieSteps_spec now (zombieSelected now (pendingPhase now sg)) (pendingPhase now sg)
    have hpt2 : (pendingPhase now sg).tasks = s.tasks.map
        (fun u => if hitsId (pendingSelected now sg) u then failPendingTask now u else u) :=
      hpt
    have hzt2 : (zombiePhase now (pendingPhase now sg)).tasks
        = (pendingPhase now sg).tasks.map
            (fun u => if hitsId (zombieSelected now (pendingPhase now sg)) u
              then demoteTask now u else u) := hzt
    intro u hu hst
    rw [hsw] at hu
    rw [hzt2, hpt2] at hu
    obtain ⟨y, hy, hyu⟩ := List.mem_map.1 hu
    obtain ⟨x, hx, hxy⟩ := List.mem_map.1 hy
    by_cases h2 : hitsId (zombieSelected now (pendingPhase now sg)) y = true
    · have : u = demoteTask now y := by
        rw [← hyu]
        show (if hitsId (zombieSelected now (pendingPhase now sg)) y
          then demoteTask now y else y) = _
        rw [if_pos h2]
      rw [this] at hst
      rcases hst with hcon | hcon <;> cases hcon
    · have huy : u = y := by
        rw [← hyu]
        show (if hitsId (zombieSelected now (pendingPhase now sg)) y
          then demoteTask now y else y) = _
        rw [if_neg h2]
      subst huy
      by_cases h1 : hitsId (pendingSelected now sg) x = true
      · have : u = failPendingTask now x := by
          rw [← hxy]
          show (if hitsId (pendingSelected now sg) x then failPendingTask now x else x) = _
          rw [if_pos h1]
        rw [this] at hst
        rcases hst with hcon | hcon <;> cases hcon
      · have hux : u = x := by
          rw [← hxy]
          show (if hitsId (pendingSelected now sg) x then failPendingTask now x else x) = _
          rw [if_neg h1]
        subst hux
        exact h u hx hst

/-- C1 amended: in every protocol-respecting reachable store, every task
in EXTRACTING or PROCESSING has a non-null assigned_worker (the converse
fails: the completion and extraction-failure paths leave the stale
assignment on READY/FAILED rows, see the counterexample). -/
theorem in_flight_tasks_have_assigned_worker (s : Store) (hs : Reachable s) :
    workerInv s := by
  induction hs with
  | init ws cd => intro t ht _; cases ht
  | ingest s hs taskId uploaderId now ih =>
    intro t ht hst
    rcases List.mem_append.1 ht with h1 | h1
    · exact ih t h1 hst
    · rw [List.mem_singleton.1 h1] at hst
      rcases hst with hcon | hcon <;> cases hcon
  | uploadOk s hs taskId path uploaderId now ih =>
    intro t ht hst
    obtain ⟨x, hx, hfx⟩ := List.mem_map.1 ht
    by_cases hid : x.id = taskId
    · have : t.status = MediaStatus.UPLOADED := by
        rw [← hfx]
        rw [if_pos hid]
      rw [this] at hst
      rcases hst with hcon | hcon <;> cases hcon
    · have : t = x := by
        rw [← hfx]
        rw [if_neg hid]
      rw [this] at hst ⊢
      exact ih x hx hst
  | uploadFail s hs taskId uploaderId now ih =>
    intro t ht hst
    obtain ⟨x, hx, hfx⟩ := List.mem_map.1 ht
    by_cases hid : x.id = taskId
    · have : t.status = MediaStatus.FAILED := by
        rw [← hfx]
        rw [if_pos hid]
      rw [this] at hst
      rcases hst with hcon | hcon <;> cases hcon
    · have : t = x := by
        rw [← hfx]
        rw [if_neg hid]
      rw [this] at hst ⊢
      exact ih x hx hst
  | heartbeat s hs name today now ih => exact fun t ht hst => ih t ht hst
  | ratePause s hs name now ih => exact fun t ht hst => ih t ht hst
  | gate s hs now ih => exact fun t ht hst => ih t ht hst
  | notifySent s hs userId mediaId status worker imgUrl address failedReason ih =>
    exact fun t ht hst => ih t ht hst
  | claim s hs name now ih =>
    intro t ht hst
    unfold claimNext at ht
    cases hp : pickOldest s.tasks with
    | none =>
      simp only [hp] at ht
      exact ih t ht hst
    | some p =>
      rcases p with ⟨i, b⟩
      simp only [hp] at ht
      rcases List.mem_or_eq_of_mem_set ht with h1 | h1
      · exact ih t h1 hst
      · rw [h1]
        intro hcon
        cases hcon
  | extractOk s hs name taskId meta now hold ih =>
    intro t ht hst
    obtain ⟨x, hx, hfx⟩ := List.mem_map.1 ht
    by_cases hid : x.id = taskId
    · have hx2 := hold x hx hid
      have : t.assignedWorker = x.assignedWorker := by
        rw [← hfx]
        rw [if_pos hid]
        cases hme : meta.hasError <;> cases hgp : meta.gps <;> rfl
      rw [this, hx2.2]
      intro hcon
      cases hcon
    · have : t = x := by
        rw [← hfx]
        rw [if_neg hid]
      rw [this] at hst ⊢
      exact ih x hx hst
  | extractFail s hs name taskId uploaderId e now hold ih =>
    intro t ht hst
    obtain ⟨x, hx, hfx⟩ := List.mem_map.1 ht
    by_cases hid : x.id = taskId
    · have : t.status = MediaStatus.FAILED := by
        rw [← hfx]
        rw [if_pos hid]
      rw [this] at hst
      rcases hst with hcon | hcon <;> cases hcon
    · have : t = x := by
        rw [← hfx]
        rw [if_neg hid]
      rw [this] at hst ⊢
      exact ih x hx hst
  | process s hs name outcome taskId now hold ih =>
    intro t ht hst
    cases outcome with
    | raised msg => exact ih t ht hst
    | ok gen =>
      have ht2 : t ∈ (finalizeTask name gen taskId now s).tasks := ht
      unfold finalizeTask at ht2
      cases hf : s.tasks.find? (fun u => u.id == taskId) with
      | none =>
        simp only [hf] at ht2
        exact ih t ht2 hst
      | some task =>
        simp only [hf] at ht2
        obtain ⟨x, hx, hfx⟩ := List.mem_map.1 ht2
        by_cases hid : x.id = taskId
        · have : t.status = MediaStatus.READY := by
            rw [← hfx]
            rw [if_pos hid]
            exact applyRollup_status _ _ _
          rw [this] at hst
          rcases hst with hcon | hcon <;> cases hcon
        · have : t = x := by
            rw [← hfx]
            rw [if_neg hid]
          rw [this] at hst ⊢
          exact ih x hx hst
  | reap s hs now ih => exact reaperSweep_preserves_workerInv now s ih

/-- Witness for C1 amended: the claimed task of the concrete run, while
PROCESSING, has a non-null assigned_worker. -/
theorem in_flight_tasks_have_assigned_worker_witness :
    runTask0.assignedWorker ≠ none :=
  in_flight_tasks_have_assigned_worker runS4 reachable_runS4 runTask0 (by decide)
    (by decide)

end Hyperion
